import Mathlib

/-! smallsh: a verification development over `main.c`.

The C program is embedded shallowly.  A C string is the list of its characters
without the terminating NUL; reading index 0 of the empty string gives the
terminator.  System calls are recorded as events, and what the operating
system answers (the result of `fork`, of `waitpid`, of `getpid`) is an explicit
argument of the function that asks.
-/

namespace Smallsh

/-! ## C strings -/

/-- A C string: its characters, the terminating NUL left out. -/
abbrev CStr := List Char

/-- First byte of a C string (`*s`, `s[0]`); the terminator when the string is empty. -/
def firstChar (s : CStr) : Char := s.headD (Char.ofNat 0)

/-- The text `%d` prints for an `int`. -/
def fmt_d (n : Int) : CStr :=
  match n with
  | Int.ofNat m => Nat.toDigits 10 m
  | Int.negSucc m => '-' :: Nat.toDigits 10 (m + 1)

/-- The first `n` bytes at the address of a string literal `lit`: the literal,
its terminating NUL, then `after`, the bytes that follow the literal in memory. -/
def readBytes (lit : CStr) (after : List Char) (n : Nat) : List Char :=
  (lit ++ Char.ofNat 0 :: after).take n

/-! ## `check_for_skips` -/

/-- Embedding of `check_for_skips` (main.c 227-241). -/
def check_for_skips (input : CStr) : Int :=
  let blankMarker : Char := Char.ofNat 10
  let commentMarker : Char := '#'
  let firstCharacter : Char := firstChar input
  if firstChar input = blankMarker ∨ firstCharacter = commentMarker then 1 else 0

/-! ## `strtok_r` and `convert_input` -/

/-- The delimiter set `" \n\t\r\a"` of the call to `strtok_r`. -/
def isDelim (c : Char) : Bool :=
  c = ' ' || c = '\n' || c = '\t' || c = '\r' || c = Char.ofNat 7

/-- One call of `strtok_r` on the text at `saveptr`: skip leading delimiters;
at the end of the string the result is `NULL` (`none`); otherwise the token runs
to the next delimiter, which is overwritten by NUL, and `saveptr` moves past it
(or stays on the terminator when the token ends the string). -/
def strtok_r (s : CStr) : Option (CStr × CStr) :=
  match s.dropWhile isDelim with
  | [] => none
  | c :: t =>
    some ((c :: t).takeWhile (fun x => !isDelim x),
          ((c :: t).dropWhile (fun x => !isDelim x)).drop 1)

/-- The `struct command` of main.c 30-37.  `arguments` holds the entries
`arguments[0 .. numArgs-1]` that `convert_input` has filled in, the rest of the
512 slots being `NULL`; a `NULL` pointer is `none`; `commandName` is `none`
while the field points to no defined string: it is uninitialised, or `strcpy`
has written past the end of its block. -/
structure command where
  commandName : Option CStr
  arguments : List CStr
  numArgs : Nat
  inputFile : Option CStr
  outputFile : Option CStr
  backgroundFlag : Int
  deriving DecidableEq, Repr

/-- The parsing flags of `convert_input` (main.c 340-345), all but `setCommand`. -/
structure Flags where
  setArgs : Int
  setInput : Int
  setOutput : Int
  setBackground : Int
  deriving DecidableEq, Repr

/-- The local variables of `convert_input` that live across loop iterations. -/
structure ConvState where
  currCommand : command
  numArgs : Nat
  convertedString : CStr
  converted : Int
  setCommand : Int
  flags : Flags
  deriving DecidableEq, Repr

/-- The text of `pidstring`: `snprintf(pidstring, 13, "%d", currpid)` keeps at
most 12 characters. -/
def pidstring (currpid : Int) : CStr := (fmt_d currpid).take 12

/-- The inner loop `for (int i = 0; i < strlen(token) - 1; i++)` of main.c
399-414 (and 430-444), run from index `i` for `n` more rounds.  At a match
`convertedString` becomes a fresh block holding the first `i` characters of the
token followed by `pidstring`: `strncpy` copies `i` characters and `strcat`
appends at the first NUL, the block returned by `malloc` being taken as
zero-filled.  A token of `strtok_r` is never empty, so `strlen(token) - 1` does
not wrap. -/
def expandLoop (token pid : CStr) : Nat → Nat → CStr × Int → CStr × Int
  | 0, _, acc => acc
  | n + 1, i, acc =>
    if token.getD i (Char.ofNat 0) = '$' ∧ token.getD (i + 1) (Char.ofNat 0) = '$' then
      expandLoop token pid n (i + 1) (token.take i ++ pid, 1)
    else
      expandLoop token pid n (i + 1) acc

/-- The scan of one token for `$$`: the pair `(convertedString, converted)`
after the inner loop, started from the pair before it. -/
def expandScan (token pid : CStr) (acc : CStr × Int) : CStr × Int :=
  expandLoop token pid (token.length - 1) 0 acc

/-- CHECK 02 (main.c 357-363): the token starts with `&`. -/
def check02 (f : Flags) (token : CStr) : Flags :=
  if firstChar token = '&' then
    { f with setBackground := 1, setOutput := 1, setInput := 1, setArgs := 1 }
  else f

/-- CHECK 03 (main.c 365-370): the token starts with `>`. -/
def check03 (f : Flags) (token : CStr) : Flags :=
  if firstChar token = '>' then { f with setOutput := 1, setInput := 1, setArgs := 1 } else f

/-- CHECK 04 (main.c 372-376): the token starts with `<`. -/
def check04 (f : Flags) (token : CStr) : Flags :=
  if firstChar token = '<' then { f with setInput := 1, setArgs := 1 } else f

/-- SET 01 (main.c 378-381). -/
def set01 (f : Flags) (c : command) : command :=
  if f.setBackground = 1 ∧ f.setOutput = 1 ∧ f.setInput = 1 then
    { c with backgroundFlag := 1 }
  else c

/-- SET 02 (main.c 383-387). -/
def set02 (f : Flags) (c : command) (token : CStr) : command :=
  if f.setOutput = 1 ∧ f.setInput = 1 ∧ f.setBackground = 0 ∧ firstChar token ≠ '>' then
    { c with outputFile := some token }
  else c

/-- SET 03 (main.c 389-393). -/
def set03 (f : Flags) (c : command) (token : CStr) : command :=
  if f.setInput = 1 ∧ f.setOutput = 0 ∧ f.setBackground = 0 ∧ firstChar token ≠ '<' then
    { c with inputFile := some token }
  else c

/-- SET 04 (main.c 395-424): the token becomes the next argument, as scanned
for `$$`. -/
def set04 (pid : CStr) (st : ConvState) (token : CStr) : ConvState :=
  if st.flags.setBackground ≠ 1 ∧ st.flags.setOutput ≠ 1 ∧ st.flags.setArgs ≠ 1 then
    let r := expandScan token pid (st.convertedString, st.converted)
    { st with
      convertedString := r.1, converted := r.2,
      currCommand := { st.currCommand with
        arguments := st.currCommand.arguments ++ [if r.2 = 1 then r.1 else token] },
      numArgs := st.numArgs + 1 }
  else st

/-- The string a block of `size` bytes holds after `strcpy(block, src)`: `src`
when its characters and the terminating NUL fit in the block; `none` when
`strcpy` writes past the end of the block, the behaviour being undefined from
there on. -/
def strcpyInto (size : Nat) (src : CStr) : Option CStr :=
  if src.length + 1 ≤ size then some src else none

/-- SET 05 (main.c 426-454): the first token becomes the command name.  The
block of `commandName` is `calloc(strlen(token) + 1, sizeof(char))`; the token,
or `convertedString` when the scan for `$$` has set `converted`, is copied into
it by `strcpy`. -/
def set05 (pid : CStr) (st : ConvState) (token : CStr) : ConvState :=
  if st.setCommand = 0 then
    let r := expandScan token pid (st.convertedString, st.converted)
    { st with
      convertedString := r.1, converted := r.2,
      currCommand := { st.currCommand with
        commandName := strcpyInto (token.length + 1) (if r.2 = 1 then r.1 else token) },
      setCommand := 1 }
  else st

/-- One iteration of the token loop of `convert_input` (main.c 357-454) on a
non-`NULL` token: the checks set the flags, SET 01 to SET 03 read the flags and
fill the command, SET 04 and SET 05 store the token. -/
def convertStep (pid : CStr) (st : ConvState) (token : CStr) : ConvState :=
  let f := check04 (check03 (check02 st.flags token) token) token
  let c := set03 f (set02 f (set01 f st.currCommand) token) token
  set05 pid (set04 pid { st with flags := f, currCommand := c } token) token

/-- The token loop `for (iterator = 1, ...; iterator < 100; iterator++, ...)`:
`fuel` is the number of iterations left, `saveptr` the text `strtok_r` resumes
from. -/
def convertLoop (pid : CStr) : Nat → CStr → ConvState → ConvState
  | 0, _, st => st
  | fuel + 1, saveptr, st =>
    match strtok_r saveptr with
    | none => st
    | some (token, rest) => convertLoop pid fuel rest (convertStep pid st token)

/-- The state of `convert_input` when it enters the token loop (main.c 309-345). -/
def convertInit : ConvState :=
  { currCommand :=
      { commandName := none, arguments := [], numArgs := 0,
        inputFile := none, outputFile := none, backgroundFlag := 0 },
    numArgs := 0, convertedString := [], converted := 0, setCommand := 0,
    flags := { setArgs := 0, setInput := 0, setOutput := 0, setBackground := 0 } }

/-- Embedding of `convert_input` (main.c 307-462); `currpid` is what `getpid()`
returns. -/
def convert_input (currpid : Int) (input : CStr) : command :=
  let st := convertLoop (pidstring currpid) 99 input convertInit
  { st.currCommand with numArgs := st.numArgs }

/-- The tokens `strtok_r` yields from `s`, in order (`fuel` bounds their number). -/
def tokensAux : Nat → CStr → List CStr
  | 0, _ => []
  | fuel + 1, s =>
    match strtok_r s with
    | none => []
    | some (token, rest) => token :: tokensAux fuel rest

/-- All tokens of an input line. -/
def tokens (s : CStr) : List CStr := tokensAux (s.length + 1) s

/-! ## Wait statuses and `display_status` -/

/-- `WTERMSIG(status)` of `<sys/wait.h>` (Linux): `status & 0x7f`.  On `Int`,
`%` and `/` by a positive number are the Euclidean remainder and the floor
quotient, which is what masking and shifting a two's complement `int` give. -/
def WTERMSIG (status : Int) : Int := status % 128

/-- `WEXITSTATUS(status)` of `<sys/wait.h>` (Linux): `(status & 0xff00) >> 8`. -/
def WEXITSTATUS (status : Int) : Int := (status / 256) % 256

/-- `WIFEXITED(status)` of `<sys/wait.h>` (Linux): `WTERMSIG(status) == 0`. -/
def WIFEXITED (status : Int) : Bool := WTERMSIG status = 0

/-- `WIFSIGNALED(status)` of `<sys/wait.h>` (Linux):
`((signed char) ((status & 0x7f) + 1) >> 1) > 0`. -/
def WIFSIGNALED (status : Int) : Bool :=
  let t := status % 128 + 1
  let sc := if 128 ≤ t then t - 256 else t
  0 < sc / 2

/-- The wait status of a child that called `exit(n)`. -/
def exitedStatus (n : Nat) : Int := (n : Int) * 256

/-- The wait status of a child killed by signal `n`; `core` is the core-dump flag. -/
def signaledStatus (n : Nat) (core : Bool) : Int := (n : Int) + (if core then 128 else 0)

/-- System calls and library calls with an effect outside the process. -/
inductive Event where
  | fork (result : Int)
  | waitpid (pid : Int) (options : Int) (result : Int)
  | write (fd : Int) (bytes : List Char)
  | kill (pid : Int) (sig : Int)
  | chdir (path : Option CStr) (result : Int)
  | sigaction (signo : Int) (handler : Int)
  | openFile (path : CStr) (flags : Int) (result : Int)
  | dup2 (oldfd newfd result : Int)
  | execvp (file : Option CStr) (argv : List CStr)
  | perror (msg : CStr)
  deriving DecidableEq, Repr

/-- Constants of the system headers (Linux). -/
def SIGINT : Int := 2
/-- Signal number of the termination request. -/
def SIGTERM : Int := 15
/-- Signal number of the terminal stop signal. -/
def SIGTSTP : Int := 20
/-- Option of `waitpid`: return at once when no child has changed state. -/
def WNOHANG : Int := 1
/-- Handler value `SIG_DFL`. -/
def SIG_DFL : Int := 0
/-- Handler value `SIG_IGN`. -/
def SIG_IGN : Int := 1
/-- Flags `O_RDONLY`. -/
def O_RDONLY : Int := 0
/-- Flags `O_WRONLY | O_TRUNC | O_CREAT`. -/
def O_WRONLY_TRUNC_CREAT : Int := 1 + 512 + 64

/-- Embedding of `display_status` (main.c 273-301): the writes it makes.
`sprintf` into `statusMessage` followed by `write` of `strlen` bytes writes the
formatted text. -/
def display_status (terminationStatus : Int) : List Event :=
  if terminationStatus = -5 then
    [Event.write 1 ("exit value 0\n".toList.take 13)]
  else if WIFEXITED terminationStatus then
    [Event.write 1 ("exit status ".toList ++ fmt_d (WEXITSTATUS terminationStatus) ++ "\n".toList)]
  else if WIFSIGNALED terminationStatus then
    [Event.write 1
      ("terminated by signal ".toList ++ fmt_d (WTERMSIG terminationStatus) ++ "\n".toList)]
  else
    []

/-! ## The signal handler -/

/-- Embedding of `handle_parent_SIGTSTP` (main.c 197-219): the writes it makes
and the new value of the global `allowBackground`.  `afterEnter` and
`afterExit` are the bytes that follow the two message literals in memory. -/
def handle_parent_SIGTSTP (afterEnter afterExit : List Char) (allowBackground : Int) :
    List Event × Int :=
  if allowBackground = 1 then
    ([Event.write 1
        (readBytes "Entering foreground-only mode (& is now ignored)\n".toList afterEnter 49)], 0)
  else
    ([Event.write 1 (readBytes "Exiting foreground-only mode\n".toList afterExit 30)], 1)

/-! ## The job table and `execute_command` -/

/-- The `struct processes` of main.c 43-46: `currentProcesses i` is the content
of slot `i` of the array. -/
structure processes where
  currentProcesses : Nat → Int
  numProcesses : Nat

/-- What the operating system answers to the calls of one `execute_command`. -/
structure OS where
  /-- Result of `fork()`. -/
  fork : Int
  /-- Result of `waitpid(childPid, &childExitStatus, WNOHANG)`; the status it may
  store in `childExitStatus` is overwritten by the sweep before it is read. -/
  bgWait : Int
  /-- Result of `waitpid(childPid, &childExitStatus, 0)` and the status it
  reports; the status is stored only when the result is positive. -/
  fgWait : Int × Int
  /-- Successive results of `waitpid(-1, &childExitStatus, WNOHANG)` with the
  status each reports; past the end of the list the call returns `-1`. -/
  reaps : List (Int × Int)
  /-- The bytes that follow the literal `"terminated by signal "` in memory. -/
  afterSignalMessage : List Char
  /-- Result of `open(path, flags)`. -/
  openFile : CStr → Int → Int
  /-- Result of `dup2(oldfd, newfd)`. -/
  dup2 : Int → Int → Int
  /-- Does `execvp(file, argv)` succeed. -/
  execvpOk : Option CStr → List CStr → Bool

/-- How a call ends. -/
inductive Outcome where
  /-- It returns `lastForegroundStatus`, the job table being as given. -/
  | returned (status : Int) (runningProcesses : processes)
  /-- The process calls `exit(code)`. -/
  | exited (code : Int)
  /-- The process image is replaced by `execvp`. -/
  | execed

/-- The value of `childExitStatus` after a `waitpid` that answers `r`. -/
def storeStatus (childExitStatus : Int) (r : Int × Int) : Int :=
  if 0 < r.1 then r.2 else childExitStatus

/-- The loop `while ((childPid = waitpid(-1, &childExitStatus, WNOHANG)) > 0)`
of main.c 618-627: the events it produces. -/
def reapLoop : List (Int × Int) → List Event
  | [] => [Event.waitpid (-1) WNOHANG (-1)]
  | r :: rest =>
    if 0 < r.1 then
      Event.waitpid (-1) WNOHANG r.1
        :: Event.write 1 ("background pid ".toList ++ fmt_d r.1 ++ " is done: ".toList)
        :: (display_status r.2 ++ reapLoop rest)
    else
      [Event.waitpid (-1) WNOHANG r.1]

/-- The child branch of `execute_command` (main.c 485-584), from the input
redirection on; `k` runs the rest when the step does not exit. -/
def redirect (os : OS) (path : CStr) (flags fd : Int) (msgOpen msgDup : Option CStr)
    (k : List Event × Outcome) : List Event × Outcome :=
  let f := os.openFile path flags
  if f = -1 ∧ msgOpen.isSome then
    ([Event.openFile path flags f, Event.perror (msgOpen.getD [])], Outcome.exited 1)
  else
    let r := os.dup2 f fd
    if r = -1 ∧ msgDup.isSome then
      ([Event.openFile path flags f, Event.dup2 f fd r, Event.perror (msgDup.getD [])],
        Outcome.exited 1)
    else
      (Event.openFile path flags f :: Event.dup2 f fd r :: k.1, k.2)

/-- The child branch of `execute_command` (main.c 485-584). -/
def executeChild (os : OS) (enteredCommand : command) (allowBackground : Int)
    (foreground_child_SIGINT child_SIGTSTP : Int) : List Event × Outcome :=
  let sig1 := [Event.sigaction SIGTSTP child_SIGTSTP]
  let sig2 := if enteredCommand.backgroundFlag = 0 then
      [Event.sigaction SIGINT foreground_child_SIGINT] else []
  let argv0 := enteredCommand.arguments.head?
  let run : List Event × Outcome :=
    if os.execvpOk argv0 enteredCommand.arguments then
      ([Event.execvp argv0 enteredCommand.arguments], Outcome.execed)
    else
      ([Event.execvp argv0 enteredCommand.arguments, Event.perror "There was an error".toList],
        Outcome.exited 1)
  let bgOut : List Event × Outcome :=
    if enteredCommand.backgroundFlag = 1 ∧ allowBackground = 1
        ∧ enteredCommand.outputFile = none then
      redirect os "/dev/null".toList O_WRONLY_TRUNC_CREAT 1
        (some "Smallsh can't open file.\n".toList)
        (some "Smallsh can't redirect output to output file.\n".toList) run
    else run
  let bgIn : List Event × Outcome :=
    if enteredCommand.backgroundFlag = 1 ∧ allowBackground = 1
        ∧ enteredCommand.inputFile = none then
      redirect os "/dev/null".toList O_RDONLY 0
        (some "Smallsh can't open file\n".toList) none bgOut
    else bgOut
  let out : List Event × Outcome :=
    match enteredCommand.outputFile with
    | some path =>
      redirect os path O_WRONLY_TRUNC_CREAT 1
        (some "Smallsh can't open file.\n".toList)
        (some "Smallsh can't redirect output to output file.\n".toList) bgIn
    | none => bgIn
  let inp : List Event × Outcome :=
    match enteredCommand.inputFile with
    | some path =>
      redirect os path O_RDONLY 0
        (some "Smallsh can't open file\n".toList)
        (some "Smallsh can't redirect input to input file\n".toList) out
    | none => out
  (sig1 ++ sig2 ++ inp.1, inp.2)

/-- Embedding of `execute_command` (main.c 468-629).  `allowBackground` is the
global flag; the result is the events of the call and how it ends. -/
def execute_command (os : OS) (allowBackground : Int) (enteredCommand : command)
    (foreground_child_SIGINT child_SIGTSTP : Int) (runningProcesses : processes) :
    List Event × Outcome :=
  let childExitStatus : Int := 0
  let lastForegroundStatus : Int := 0
  let childPid := os.fork
  if childPid = 0 then
    let r := executeChild os enteredCommand allowBackground foreground_child_SIGINT child_SIGTSTP
    (Event.fork childPid :: r.1, r.2)
  else if childPid < 0 then
    ([Event.fork childPid, Event.perror "Error forking".toList], Outcome.exited 1)
  else
    if enteredCommand.backgroundFlag = 1 ∧ allowBackground = 1 then
      let runningProcesses : processes :=
        { currentProcesses :=
            Function.update runningProcesses.currentProcesses runningProcesses.numProcesses
              childPid,
          numProcesses := runningProcesses.numProcesses + 1 }
      ([Event.fork childPid,
        Event.waitpid childPid WNOHANG os.bgWait,
        Event.write 1 ("background pid is: ".toList ++ fmt_d childPid ++ "\n".toList)]
        ++ reapLoop os.reaps,
       Outcome.returned lastForegroundStatus runningProcesses)
    else
      let childExitStatus := storeStatus childExitStatus os.fgWait
      let sigMsg := if WIFSIGNALED childExitStatus then
          [Event.write 1 (readBytes "terminated by signal ".toList os.afterSignalMessage 24)]
        else []
      let lastForegroundStatus := childExitStatus
      ([Event.fork childPid, Event.waitpid childPid 0 os.fgWait.1] ++ sigMsg
        ++ reapLoop os.reaps,
       Outcome.returned lastForegroundStatus runningProcesses)

/-! ## The prompt loop -/

/-- Embedding of `change_directories` (main.c 253-267); `home` is the value of
`getenv("HOME")`, `chdirResult` what `chdir` returns. -/
def change_directories (home : Option CStr) (chdirResult : Option CStr → Int)
    (enteredCommand : command) : List Event :=
  match enteredCommand.arguments.get? 1 with
  | none => [Event.chdir home (chdirResult home)]
  | some path =>
    let cdResult := chdirResult (some path)
    if cdResult = -1 then
      [Event.chdir (some path) cdResult, Event.write 1 "No such directory exists.\n".toList]
    else
      [Event.chdir (some path) cdResult]

/-- The variables of `prompt_loop` that live across iterations, and the global
`allowBackground`. -/
structure Shell where
  runningProcesses : processes
  terminationStatus : Int
  continueLoop : Int
  allowBackground : Int

/-- What one iteration of the prompt loop needs from outside. -/
structure World where
  os : OS
  getpid : Int
  home : Option CStr
  chdirResult : Option CStr → Int

/-- How one iteration of the prompt loop ends. -/
inductive Step where
  /-- The iteration completes with the given variables. -/
  | next (sh : Shell)
  /-- The process has left the loop through `exit` or `execvp`. -/
  | left (code : Option Int)
  /-- `strcmp` reads `commandName`, which points to no defined string:
  `convert_input` never set it, or overran its block. -/
  | undefined

/-- The state of `prompt_loop` when it enters the main loop (main.c 76-145);
`heap` is the content of the block `malloc` returned for `runningProcesses`,
of which `memset` clears the first 512 bytes, 128 slots of four bytes. -/
def promptInit (heap : Nat → Int) : Shell :=
  { runningProcesses :=
      { currentProcesses := fun i => if i < 128 then 0 else heap i, numProcesses := 0 },
    terminationStatus := -5, continueLoop := 1, allowBackground := 1 }

/-- The `kill` loop of the `exit` built-in (main.c 170-172). -/
def exitKills (runningProcesses : processes) : List Event :=
  (List.range runningProcesses.numProcesses).map
    (fun _ => Event.kill (runningProcesses.currentProcesses runningProcesses.numProcesses) SIGTERM)

/-- The two functions of the core that the prompt loop calls. -/
inductive Call where
  | convert_input
  | execute_command
  deriving DecidableEq, Repr

/-- How `execute_command` ends, seen from `prompt_loop`. -/
def afterExecute (sh : Shell) : Outcome → Step
  | Outcome.returned status procs =>
    Step.next { sh with terminationStatus := status, runningProcesses := procs }
  | Outcome.exited code => Step.left (some code)
  | Outcome.execed => Step.left none

/-- One iteration of the main loop of `prompt_loop` (main.c 151-190) after the
prompt is printed and `getline` has filled `buffer`.  The first component lists
the calls to `convert_input` and `execute_command` made, the second the
events. -/
def prompt_iteration (w : World) (sh : Shell) (buffer : CStr) :
    List Call × List Event × Step :=
  if check_for_skips buffer = 1 then
    ([], [], Step.next sh)
  else
    let newCommand := convert_input w.getpid buffer
    match newCommand.commandName with
    | none => ([Call.convert_input], [], Step.undefined)
    | some name =>
      if name = "exit".toList then
        ([Call.convert_input], exitKills sh.runningProcesses,
          Step.next { sh with continueLoop := 0 })
      else if name = "cd".toList then
        ([Call.convert_input], change_directories w.home w.chdirResult newCommand, Step.next sh)
      else if name = "status".toList then
        ([Call.convert_input], display_status sh.terminationStatus, Step.next sh)
      else
        let r := execute_command w.os sh.allowBackground newCommand SIG_DFL SIG_IGN
          sh.runningProcesses
        ([Call.convert_input, Call.execute_command], r.1, afterExecute sh r.2)

/-- The last-foreground status a step leaves in `terminationStatus`, if the loop goes on. -/
def Step.status : Step → Option Int
  | Step.next sh => some sh.terminationStatus
  | _ => none

/-- The job table a step leaves, if the loop goes on: the number of tracked
ids and the slots of the given indices. -/
def Step.table (slots : List Nat) : Step → Option (Nat × List Int)
  | Step.next sh =>
    some (sh.runningProcesses.numProcesses, slots.map sh.runningProcesses.currentProcesses)
  | _ => none

/-- The job table of a returning call: the number of tracked ids and the slots
of the given indices. -/
def Outcome.table (slots : List Nat) : Outcome → Option (Nat × List Int)
  | Outcome.returned _ p => some (p.numProcesses, slots.map p.currentProcesses)
  | _ => none

/-- The value a returning call returns. -/
def Outcome.status : Outcome → Option Int
  | Outcome.returned s _ => some s
  | _ => none

/-! ## Vocabulary of the specification -/

/-- A line the specification wants skipped: empty, whitespace only, or with
`#` as its first non-space character. -/
def skipLine (input : CStr) : Bool :=
  input.all isDelim || (input.dropWhile (fun c => c = ' ')).head? = some '#'

/-- A token that starts with one of the operator characters `&`, `>`, `<`. -/
def isOperator (token : CStr) : Bool :=
  firstChar token = '&' || firstChar token = '>' || firstChar token = '<'

/-- The token has `$$` at index `i`. -/
abbrev dollarAt (token : CStr) (i : Nat) : Prop :=
  token.getD i (Char.ofNat 0) = '$' ∧ token.getD (i + 1) (Char.ofNat 0) = '$'

/-- The entries SET 04 stores for the tokens `ts`, one each, the pair
`(convertedString, converted)` being `acc` before the first. -/
def storedArgs (pid : CStr) : CStr × Int → List CStr → List CStr
  | _, [] => []
  | acc, t :: ts =>
    (if (expandScan t pid acc).2 = 1 then (expandScan t pid acc).1 else t)
      :: storedArgs pid (expandScan t pid acc) ts

/-- What the token loop keeps true of the background flag: once
`setBackground` is 1 so are `setOutput` and `setInput`, and `backgroundFlag`
is 1 exactly when `setBackground` is. -/
def BgInv (st : ConvState) : Prop :=
  (st.flags.setBackground = 1 → st.flags.setOutput = 1 ∧ st.flags.setInput = 1)
  ∧ (st.currCommand.backgroundFlag = 1 ↔ st.flags.setBackground = 1)

/-- What the token loop keeps true while no operator token has been seen. -/
def ArgInv (f : Flags) : Prop :=
  f.setArgs ≠ 1 → f.setBackground ≠ 1 ∧ f.setOutput ≠ 1

/-- The event is not a write that starts with the text `background pid is:`. -/
def notAnnounce (ev : Event) : Prop :=
  ∀ fd bytes, ev = Event.write fd bytes → ¬ List.IsPrefix "background pid is:".toList bytes

/-- A sample answer of the operating system: `fork` gives `pid`, the
foreground wait reports `status`, the sweep finds `reaps`. -/
def sampleOS (pid status : Int) (reaps : List (Int × Int)) : OS :=
  { fork := pid, bgWait := 0, fgWait := (pid, status), reaps := reaps,
    afterSignalMessage := [Char.ofNat 0, Char.ofNat 0], openFile := fun _ _ => 3, dup2 := fun _ n => n,
    execvpOk := fun _ _ => true }

/-- A sample world around one iteration of the prompt loop. -/
def sampleWorld (pid status : Int) (reaps : List (Int × Int)) : World :=
  { os := sampleOS pid status reaps, getpid := 1234, home := some "/root".toList,
    chdirResult := fun _ => 0 }

/-- A shell with the given job table content and last-foreground status. -/
def sampleShell (slots : List Int) (status : Int) : Shell :=
  { runningProcesses := { currentProcesses := fun i => slots.getD i 0,
                          numProcesses := slots.length },
    terminationStatus := status, continueLoop := 1, allowBackground := 1 }

/-! ## Skipped lines (C1) -/

/-- C1, as stated, fails: the line `" # c"` has `#` as its first non-space
character, yet `check_for_skips`, which tests the first character of the line,
returns 0 and the prompt loop calls both `convert_input` and
`execute_command`. -/
theorem skip_leading_space_counterexample :
    skipLine " # c\n".toList = true
    ∧ check_for_skips " # c\n".toList = 0
    ∧ (prompt_iteration (sampleWorld 4242 0 []) (sampleShell [] 0) " # c\n".toList).1
        = [Call.convert_input, Call.execute_command] := by
  decide

/-- C1 (amended): an empty line, whose first character is the newline, and a
line whose first character is `#` make `check_for_skips` return 1, and the prompt loop then calls neither
`convert_input` nor `execute_command`, produces no event and keeps its
variables. -/
theorem check_for_skips_first_char (w : World) (sh : Shell) (input : CStr)
    (h : firstChar input = '\n' ∨ firstChar input = '#') :
    check_for_skips input = 1 ∧ prompt_iteration w sh input = ([], [], Step.next sh) := by
  have h1 : check_for_skips input = 1 := by
    unfold check_for_skips
    have e : Char.ofNat 10 = '\n' := by decide
    simp only [e]
    rw [if_pos h]
  refine ⟨h1, ?_⟩
  unfold prompt_iteration
  rw [if_pos h1]

/-- Witness of `check_for_skips_first_char`: the comment line `"# note"`. -/
theorem check_for_skips_first_char_witness :
    check_for_skips "# note\n".toList = 1
    ∧ prompt_iteration (sampleWorld 4242 0 []) (sampleShell [] 0) "# note\n".toList
        = ([], [], Step.next (sampleShell [] 0)) :=
  check_for_skips_first_char (sampleWorld 4242 0 []) (sampleShell [] 0) "# note\n".toList
    (Or.inr (by decide))

/-! ## Redirection targets (C2) -/

/-- C2 at the failing input `wc > out < in`: the output target is not the
token after `>` but the last token of the line, and the input target is never
set; on `ls > a b` the later token `b` replaces the captured target `a`, while
the order `wc < in > out` gives both targets. -/
theorem redirect_targets_overwritten :
    (convert_input 1234 "wc > out < in\n".toList).outputFile = some "in".toList
    ∧ (convert_input 1234 "wc > out < in\n".toList).inputFile = none
    ∧ (convert_input 1234 "ls > a b\n".toList).outputFile = some "b".toList
    ∧ (convert_input 1234 "wc < in > out\n".toList).inputFile = some "in".toList
    ∧ (convert_input 1234 "wc < in > out\n".toList).outputFile = some "out".toList := by
  decide

/-! ## The token loop as a fold over the tokens of the line -/

theorem strtok_r_rest_length {s token rest : CStr} (h : strtok_r s = some (token, rest)) :
    rest.length < s.length := by
  unfold strtok_r at h
  have hd : (s.dropWhile isDelim).length ≤ s.length :=
    (List.dropWhile_sublist isDelim).length_le
  cases hs : s.dropWhile isDelim with
  | nil => rw [hs] at h; simp at h
  | cons c t =>
    rw [hs] at h hd
    simp only [Option.some.injEq, Prod.mk.injEq] at h
    have h2 : ((c :: t).dropWhile (fun x => !isDelim x)).length ≤ (c :: t).length :=
      (List.dropWhile_sublist _).length_le
    have h3 : rest.length ≤ ((c :: t).dropWhile (fun x => !isDelim x)).length := by
      rw [← h.2]; simp
    have hc : isDelim c = false := by
      have := List.head_dropWhile_not isDelim s (by rw [hs]; simp)
      simpa [hs] using this
    have h4 : rest.length < (c :: t).length := by
      rw [← h.2]
      simp only [List.dropWhile_cons, hc, Bool.not_false, ↓reduceIte, List.length_drop,
        List.length_cons]
      have := (List.dropWhile_sublist (fun x => !isDelim x) (l := t)).length_le
      omega
    omega

theorem tokensAux_enough_fuel : ∀ (n : Nat) (s : CStr), s.length < n →
    ∀ m, n ≤ m → tokensAux m s = tokensAux n s := by
  intro n
  induction n with
  | zero => intro s h; omega
  | succ n ih =>
    intro s h m hm
    obtain ⟨m, rfl⟩ : ∃ k, m = k + 1 := ⟨m - 1, by omega⟩
    simp only [tokensAux]
    cases hs : strtok_r s with
    | none => rfl
    | some p =>
      obtain ⟨token, rest⟩ := p
      have := strtok_r_rest_length hs
      simp only
      rw [ih rest (by omega) m (by omega)]

theorem tokensAux_take : ∀ (n m : Nat) (s : CStr),
    (tokensAux m s).take n = tokensAux (min n m) s := by
  intro n
  induction n with
  | zero => intro m s; simp [tokensAux]
  | succ n ih =>
    intro m s
    cases m with
    | zero => simp [tokensAux]
    | succ m =>
      have e : min (n + 1) (m + 1) = min n m + 1 := by omega
      rw [e]
      simp only [tokensAux]
      cases hs : strtok_r s with
      | none => simp
      | some p =>
        obtain ⟨token, rest⟩ := p
        simp only [List.take_succ_cons, ih]

theorem tokensAux_eq_take (n : Nat) (s : CStr) : tokensAux n s = (tokens s).take n := by
  unfold tokens
  rw [tokensAux_take]
  by_cases h : n ≤ s.length + 1
  · rw [Nat.min_eq_left h]
  · rw [Nat.min_eq_right (by omega)]
    exact tokensAux_enough_fuel (s.length + 1) s (by omega) n (by omega)

theorem convertLoop_eq_foldl (pid : CStr) : ∀ (n : Nat) (s : CStr) (st : ConvState),
    convertLoop pid n s st = (tokensAux n s).foldl (convertStep pid) st := by
  intro n
  induction n with
  | zero => intro s st; rfl
  | succ n ih =>
    intro s st
    simp only [convertLoop, tokensAux]
    cases hs : strtok_r s with
    | none => rfl
    | some p =>
      obtain ⟨token, rest⟩ := p
      simp only [List.foldl_cons, ih]

/-- The state `convert_input` ends its token loop in: the fold of the loop
body over the first 99 tokens of the line. -/
theorem convert_input_eq (currpid : Int) (input : CStr) :
    convert_input currpid input =
      { (((tokens input).take 99).foldl (convertStep (pidstring currpid)) convertInit).currCommand
        with numArgs :=
          (((tokens input).take 99).foldl (convertStep (pidstring currpid)) convertInit).numArgs } := by
  unfold convert_input
  simp only [convertLoop_eq_foldl, tokensAux_eq_take]

/-! ## The flags of the token loop -/

theorem set04_flags (pid : CStr) (st : ConvState) (token : CStr) :
    (set04 pid st token).flags = st.flags := by
  unfold set04; split_ifs <;> rfl

theorem set05_flags (pid : CStr) (st : ConvState) (token : CStr) :
    (set05 pid st token).flags = st.flags := by
  unfold set05; split_ifs <;> rfl

theorem convertStep_flags (pid : CStr) (st : ConvState) (token : CStr) :
    (convertStep pid st token).flags
      = check04 (check03 (check02 st.flags token) token) token := by
  simp only [convertStep, set05_flags, set04_flags]

theorem checks_setBackground (f : Flags) (token : CStr) :
    (check04 (check03 (check02 f token) token) token).setBackground
      = if firstChar token = '&' then 1 else f.setBackground := by
  unfold check04 check03 check02
  split_ifs <;> rfl

theorem checks_setOutput (f : Flags) (token : CStr) :
    (check04 (check03 (check02 f token) token) token).setOutput
      = if firstChar token = '&' ∨ firstChar token = '>' then 1 else f.setOutput := by
  unfold check04 check03 check02
  split_ifs <;> simp_all

theorem checks_setInput (f : Flags) (token : CStr) :
    (check04 (check03 (check02 f token) token) token).setInput
      = if isOperator token then 1 else f.setInput := by
  unfold check04 check03 check02 isOperator
  split_ifs <;> simp_all

theorem checks_setArgs (f : Flags) (token : CStr) :
    (check04 (check03 (check02 f token) token) token).setArgs
      = if isOperator token then 1 else f.setArgs := by
  unfold check04 check03 check02 isOperator
  split_ifs <;> simp_all

theorem set04_backgroundFlag (pid : CStr) (st : ConvState) (token : CStr) :
    (set04 pid st token).currCommand.backgroundFlag = st.currCommand.backgroundFlag := by
  unfold set04; split_ifs <;> rfl

theorem set05_backgroundFlag (pid : CStr) (st : ConvState) (token : CStr) :
    (set05 pid st token).currCommand.backgroundFlag = st.currCommand.backgroundFlag := by
  unfold set05; split_ifs <;> rfl

theorem set02_backgroundFlag (f : Flags) (c : command) (token : CStr) :
    (set02 f c token).backgroundFlag = c.backgroundFlag := by
  unfold set02; split_ifs <;> rfl

theorem set03_backgroundFlag (f : Flags) (c : command) (token : CStr) :
    (set03 f c token).backgroundFlag = c.backgroundFlag := by
  unfold set03; split_ifs <;> rfl

theorem convertStep_backgroundFlag (pid : CStr) (st : ConvState) (token : CStr) :
    (convertStep pid st token).currCommand.backgroundFlag
      = (set01 (check04 (check03 (check02 st.flags token) token) token)
          st.currCommand).backgroundFlag := by
  simp only [convertStep, set05_backgroundFlag, set04_backgroundFlag, set03_backgroundFlag,
    set02_backgroundFlag]

theorem convertStep_BgInv (pid : CStr) (st : ConvState) (token : CStr) (h : BgInv st) :
    BgInv (convertStep pid st token)
    ∧ ((convertStep pid st token).flags.setBackground = 1
        ↔ st.flags.setBackground = 1 ∨ firstChar token = '&') := by
  obtain ⟨h1, h2⟩ := h
  have hb := checks_setBackground st.flags token
  have ho := checks_setOutput st.flags token
  have hi := checks_setInput st.flags token
  unfold BgInv
  rw [convertStep_backgroundFlag, convertStep_flags]
  unfold set01
  by_cases hc : firstChar token = '&'
  · have hop : isOperator token = true := by simp [isOperator, hc]
    rw [if_pos hc] at hb
    rw [if_pos (Or.inl hc)] at ho
    rw [if_pos hop] at hi
    rw [if_pos ⟨hb, ho, hi⟩]
    simp [hb, ho, hi, hc]
  · rw [if_neg hc] at hb
    by_cases hs : st.flags.setBackground = 1
    · obtain ⟨h3, h4⟩ := h1 hs
      have ho1 : (check04 (check03 (check02 st.flags token) token) token).setOutput = 1 := by
        rw [ho]; split_ifs <;> simp [h3]
      have hi1 : (check04 (check03 (check02 st.flags token) token) token).setInput = 1 := by
        rw [hi]; split_ifs <;> simp [h4]
      rw [if_pos ⟨by rw [hb]; exact hs, ho1, hi1⟩]
      simp [hb, ho1, hi1, hs]
    · have hn : ¬ ((check04 (check03 (check02 st.flags token) token) token).setBackground = 1
          ∧ (check04 (check03 (check02 st.flags token) token) token).setOutput = 1
          ∧ (check04 (check03 (check02 st.flags token) token) token).setInput = 1) := by
        rw [hb]; exact fun h => hs h.1
      rw [if_neg hn]
      simp [hb, hs, hc, h2]

theorem foldl_BgInv (pid : CStr) : ∀ (ts : List CStr) (st : ConvState), BgInv st →
    BgInv (ts.foldl (convertStep pid) st)
    ∧ ((ts.foldl (convertStep pid) st).flags.setBackground = 1
        ↔ st.flags.setBackground = 1 ∨ ∃ t ∈ ts, firstChar t = '&') := by
  intro ts
  induction ts with
  | nil => intro st h; simpa using h
  | cons t ts ih =>
    intro st h
    obtain ⟨h1, h2⟩ := convertStep_BgInv pid st t h
    obtain ⟨h3, h4⟩ := ih (convertStep pid st t) h1
    refine ⟨h3, ?_⟩
    rw [List.foldl_cons, h4, h2]
    simp only [List.mem_cons, exists_eq_or_imp]
    tauto

/-! ## The background flag (C3) -/

/-- C3, as stated, fails: on `sleep 5 & x` the command comes back with
`backgroundFlag = 1` although the last token of the line is `x`; on `sleep &x`
it does although no token is the single character `&`. -/
theorem background_flag_counterexample :
    (convert_input 1234 "sleep 5 & x\n".toList).backgroundFlag = 1
    ∧ (tokens "sleep 5 & x\n".toList).getLast? = some "x".toList
    ∧ (convert_input 1234 "sleep &x\n".toList).backgroundFlag = 1
    ∧ "&".toList ∉ tokens "sleep &x\n".toList := by
  decide

/-- C3 (amended): `convert_input` returns a command with `backgroundFlag = 1`
exactly when one of the first 99 tokens of the line begins with `&`. -/
theorem backgroundFlag_iff (currpid : Int) (input : CStr) :
    (convert_input currpid input).backgroundFlag = 1
      ↔ ∃ t ∈ (tokens input).take 99, firstChar t = '&' := by
  rw [convert_input_eq]
  have h0 : BgInv convertInit := by
    unfold BgInv convertInit
    simp
  obtain ⟨⟨_, h2⟩, h3⟩ := foldl_BgInv (pidstring currpid) ((tokens input).take 99) convertInit h0
  show (List.foldl (convertStep (pidstring currpid)) convertInit
    ((tokens input).take 99)).currCommand.backgroundFlag = 1 ↔ _
  rw [h2, h3]
  simp [convertInit]

/-! ## The scan for `$$` -/

theorem expandLoop_cases (token pid : CStr) : ∀ (n i : Nat),
    ((∀ k, i ≤ k → k < i + n → ¬ dollarAt token k)
      ∧ ∀ acc, expandLoop token pid n i acc = acc)
    ∨ ∃ j, i ≤ j ∧ j < i + n ∧ dollarAt token j
        ∧ (∀ k, j < k → k < i + n → ¬ dollarAt token k)
        ∧ ∀ acc, expandLoop token pid n i acc = (token.take j ++ pid, 1) := by
  intro n
  induction n with
  | zero =>
    intro i
    left
    exact ⟨fun k h1 h2 => by omega, fun acc => rfl⟩
  | succ n ih =>
    intro i
    by_cases h : dollarAt token i
    · rcases ih (i + 1) with ⟨h1, h2⟩ | ⟨j, h1, h2, h3, h4, h5⟩
      · right
        refine ⟨i, le_refl i, by omega, h, fun k hk1 hk2 => h1 k (by omega) (by omega), ?_⟩
        intro acc
        simp only [expandLoop]
        rw [if_pos h, h2]
      · right
        refine ⟨j, by omega, by omega, h3, fun k hk1 hk2 => h4 k hk1 (by omega), ?_⟩
        intro acc
        simp only [expandLoop]
        rw [if_pos h, h5]
    · rcases ih (i + 1) with ⟨h1, h2⟩ | ⟨j, h1, h2, h3, h4, h5⟩
      · left
        refine ⟨fun k hk1 hk2 => ?_, ?_⟩
        · by_cases e : k = i
          · rw [e]; exact h
          · exact h1 k (by omega) (by omega)
        · intro acc
          simp only [expandLoop]
          rw [if_neg h, h2]
      · right
        refine ⟨j, by omega, by omega, h3, fun k hk1 hk2 => h4 k hk1 (by omega), ?_⟩
        intro acc
        simp only [expandLoop]
        rw [if_neg h, h5]

/-- A token with `$$` somewhere is stored as its text before the last `$$`
followed by the pid, whatever the scan started from. -/
theorem expandScan_of_dollar (token pid : CStr)
    (h : ∃ i, i + 1 < token.length ∧ dollarAt token i) :
    ∃ j, j + 1 < token.length ∧ dollarAt token j
      ∧ (∀ k, j < k → k + 1 < token.length → ¬ dollarAt token k)
      ∧ ∀ acc, expandScan token pid acc = (token.take j ++ pid, 1) := by
  obtain ⟨i, hi, hd⟩ := h
  unfold expandScan
  rcases expandLoop_cases token pid (token.length - 1) 0 with ⟨h1, _⟩ | ⟨j, _, h2, h3, h4, h5⟩
  · exact absurd hd (h1 i (Nat.zero_le i) (by omega))
  · exact ⟨j, by omega, h3, fun k hk1 hk2 => h4 k hk1 (by omega), h5⟩

/-- A token without `$$` leaves `convertedString` and `converted` as they were. -/
theorem expandScan_of_no_dollar (token pid : CStr) (h : ∀ i, ¬ dollarAt token i)
    (acc : CStr × Int) : expandScan token pid acc = acc := by
  unfold expandScan
  rcases expandLoop_cases token pid (token.length - 1) 0 with ⟨_, h2⟩ | ⟨j, _, _, h3, _, _⟩
  · exact h2 acc
  · exact absurd h3 (h j)

theorem expandScan_idem (token pid : CStr) (acc : CStr × Int) :
    expandScan token pid (expandScan token pid acc) = expandScan token pid acc := by
  unfold expandScan
  rcases expandLoop_cases token pid (token.length - 1) 0 with ⟨_, h2⟩ | ⟨j, _, _, _, _, h5⟩
  · rw [h2, h2]
  · rw [h5, h5]

theorem storedArgs_length (pid : CStr) : ∀ (ts : List CStr) (acc : CStr × Int),
    (storedArgs pid acc ts).length = ts.length := by
  intro ts
  induction ts with
  | nil => intro acc; rfl
  | cons t ts ih => intro acc; simp [storedArgs, ih]

theorem storedArgs_of_no_dollar (pid : CStr) : ∀ (ts : List CStr) (acc : CStr × Int),
    acc.2 ≠ 1 → (∀ t ∈ ts, ∀ i, ¬ dollarAt t i) → storedArgs pid acc ts = ts := by
  intro ts
  induction ts with
  | nil => intro acc _ _; rfl
  | cons t ts ih =>
    intro acc ha h
    have e := expandScan_of_no_dollar t pid (h t (List.mem_cons_self t ts)) acc
    simp only [storedArgs, e, if_neg ha]
    rw [ih acc ha (fun u hu => h u (List.mem_cons_of_mem t hu))]

theorem storedArgs_getElem (pid : CStr) (token : CStr) (v : CStr × Int)
    (hv : ∀ acc, expandScan token pid acc = v) :
    ∀ (ts : List CStr) (acc : CStr × Int) (k : Nat), ts[k]? = some token →
      (storedArgs pid acc ts)[k]? = some (if v.2 = 1 then v.1 else token) := by
  intro ts
  induction ts with
  | nil => intro acc k h; simp at h
  | cons t ts ih =>
    intro acc k h
    cases k with
    | zero =>
      simp only [List.getElem?_cons_zero, Option.some.injEq] at h
      subst h
      simp [storedArgs, hv]
    | succ k =>
      simp only [List.getElem?_cons_succ] at h
      simp only [storedArgs, List.getElem?_cons_succ]
      exact ih _ k h

/-! ## The arguments array -/

theorem checks_of_not_operator (f : Flags) (token : CStr) (h : isOperator token = false) :
    check04 (check03 (check02 f token) token) token = f := by
  simp only [isOperator, Bool.or_eq_false_iff, decide_eq_false_iff_not] at h
  unfold check04 check03 check02
  rw [if_neg h.1.1, if_neg h.1.2, if_neg h.2]

theorem set01_arguments (f : Flags) (c : command) :
    (set01 f c).arguments = c.arguments := by
  unfold set01; split_ifs <;> rfl

theorem set02_arguments (f : Flags) (c : command) (token : CStr) :
    (set02 f c token).arguments = c.arguments := by
  unfold set02; split_ifs <;> rfl

theorem set03_arguments (f : Flags) (c : command) (token : CStr) :
    (set03 f c token).arguments = c.arguments := by
  unfold set03; split_ifs <;> rfl

theorem set05_arguments (pid : CStr) (st : ConvState) (token : CStr) :
    (set05 pid st token).currCommand.arguments = st.currCommand.arguments := by
  unfold set05; split_ifs <;> rfl

theorem set05_numArgs (pid : CStr) (st : ConvState) (token : CStr) :
    (set05 pid st token).numArgs = st.numArgs := by
  unfold set05; split_ifs <;> rfl

theorem set05_scan (pid : CStr) (st : ConvState) (token : CStr) :
    ((set05 pid st token).convertedString, (set05 pid st token).converted)
      = if st.setCommand = 0 then expandScan token pid (st.convertedString, st.converted)
        else (st.convertedString, st.converted) := by
  unfold set05; split_ifs <;> rfl

/-- The loop body once an operator token has been seen: no argument is added. -/
theorem convertStep_frozen (pid : CStr) (st : ConvState) (token : CStr)
    (h : (check04 (check03 (check02 st.flags token) token) token).setArgs = 1) :
    (convertStep pid st token).currCommand.arguments = st.currCommand.arguments
    ∧ (convertStep pid st token).numArgs = st.numArgs := by
  simp only [convertStep, set05_arguments, set05_numArgs]
  have e : ∀ c : command, set04 pid
      { st with flags := check04 (check03 (check02 st.flags token) token) token,
                currCommand := c } token
      = { st with flags := check04 (check03 (check02 st.flags token) token) token,
                  currCommand := c } := by
    intro c
    unfold set04
    rw [if_neg (fun hh => hh.2.2 h)]
  rw [e]
  simp only [set03_arguments, set02_arguments, set01_arguments, and_self]

/-- The loop body on a token that starts with no operator character, no
operator token having been seen: the token is stored as the next argument. -/
theorem convertStep_plain (pid : CStr) (st : ConvState) (token : CStr)
    (hop : isOperator token = false) (hinv : ArgInv st.flags) (ha : st.flags.setArgs ≠ 1) :
    (convertStep pid st token).currCommand.arguments
        = st.currCommand.arguments
          ++ [if (expandScan token pid (st.convertedString, st.converted)).2 = 1
              then (expandScan token pid (st.convertedString, st.converted)).1 else token]
    ∧ (convertStep pid st token).numArgs = st.numArgs + 1
    ∧ ((convertStep pid st token).convertedString, (convertStep pid st token).converted)
        = expandScan token pid (st.convertedString, st.converted)
    ∧ (convertStep pid st token).flags = st.flags := by
  obtain ⟨hb, ho⟩ := hinv ha
  have e : ∀ c : command, set04 pid { st with flags := st.flags, currCommand := c } token
      = { st with
          convertedString := (expandScan token pid (st.convertedString, st.converted)).1,
          converted := (expandScan token pid (st.convertedString, st.converted)).2,
          currCommand := { c with
            arguments := c.arguments
              ++ [if (expandScan token pid (st.convertedString, st.converted)).2 = 1
                  then (expandScan token pid (st.convertedString, st.converted)).1
                  else token] },
          numArgs := st.numArgs + 1 } := by
    intro c
    unfold set04
    rw [if_pos ⟨hb, ho, ha⟩]
  refine ⟨?_, ?_, ?_, ?_⟩
  · simp only [convertStep, checks_of_not_operator _ _ hop, set05_arguments, e,
      set03_arguments, set02_arguments, set01_arguments]
  · simp only [convertStep, checks_of_not_operator _ _ hop, set05_numArgs, e]
  · simp only [convertStep, checks_of_not_operator _ _ hop, set05_scan, e]
    split_ifs
    · exact expandScan_idem token pid _
    · rfl
  · rw [convertStep_flags, checks_of_not_operator _ _ hop]

theorem foldl_frozen (pid : CStr) : ∀ (ts : List CStr) (st : ConvState),
    st.flags.setArgs = 1 →
    (ts.foldl (convertStep pid) st).currCommand.arguments = st.currCommand.arguments
    ∧ (ts.foldl (convertStep pid) st).numArgs = st.numArgs := by
  intro ts
  induction ts with
  | nil => intro st _; exact ⟨rfl, rfl⟩
  | cons t ts ih =>
    intro st h
    have h1 : (check04 (check03 (check02 st.flags t) t) t).setArgs = 1 := by
      rw [checks_setArgs]; split_ifs <;> simp [h]
    obtain ⟨h2, h3⟩ := convertStep_frozen pid st t h1
    obtain ⟨h4, h5⟩ := ih (convertStep pid st t) (by rw [convertStep_flags]; exact h1)
    rw [List.foldl_cons, h4, h5, h2, h3]
    exact ⟨rfl, rfl⟩

/-- The arguments array after the token loop: one stored entry for each
token before the first operator token. -/
theorem foldl_arguments (pid : CStr) : ∀ (ts : List CStr) (st : ConvState),
    ArgInv st.flags → st.flags.setArgs ≠ 1 →
    (ts.foldl (convertStep pid) st).currCommand.arguments
        = st.currCommand.arguments
          ++ storedArgs pid (st.convertedString, st.converted)
              (ts.takeWhile (fun t => !isOperator t))
    ∧ (ts.foldl (convertStep pid) st).numArgs
        = st.numArgs + (ts.takeWhile (fun t => !isOperator t)).length := by
  intro ts
  induction ts with
  | nil => intro st _ _; simp [storedArgs]
  | cons t ts ih =>
    intro st hinv ha
    cases hop : isOperator t with
    | true =>
      have h1 : (check04 (check03 (check02 st.flags t) t) t).setArgs = 1 := by
        rw [checks_setArgs, if_pos hop]
      obtain ⟨h2, h3⟩ := convertStep_frozen pid st t h1
      obtain ⟨h4, h5⟩ := foldl_frozen pid ts (convertStep pid st t)
        (by rw [convertStep_flags]; exact h1)
      rw [List.foldl_cons, h4, h5, h2, h3]
      simp [List.takeWhile_cons, hop, storedArgs]
    | false =>
      obtain ⟨h1, h2, h3, h4⟩ := convertStep_plain pid st t hop hinv ha
      obtain ⟨h5, h6⟩ := ih (convertStep pid st t) (by rw [h4]; exact hinv) (by rw [h4]; exact ha)
      rw [List.foldl_cons, h5, h6, h1, h2, h3]
      simp only [List.takeWhile_cons, hop, Bool.not_false, ↓reduceIte, storedArgs,
        List.length_cons, List.append_assoc, List.singleton_append, true_and]
      omega

theorem convert_input_arguments (currpid : Int) (input : CStr) :
    (convert_input currpid input).arguments
        = storedArgs (pidstring currpid) ([], 0)
            (((tokens input).take 99).takeWhile (fun t => !isOperator t))
    ∧ (convert_input currpid input).numArgs
        = (((tokens input).take 99).takeWhile (fun t => !isOperator t)).length := by
  rw [convert_input_eq]
  have h := foldl_arguments (pidstring currpid) ((tokens input).take 99) convertInit
    (by unfold ArgInv convertInit; simp) (by unfold convertInit; simp)
  simpa [convertInit] using h

/-! ## Arguments before the first operator (C4) -/

/-- C4: for a line of at most 99 tokens, `numArgs` and the number of entries
of `arguments` equal the number of tokens before the first token that begins
with `&`, `>` or `<`; the entries are those stored for these tokens, in order,
and are the tokens themselves when none of them contains `$$`. -/
theorem arguments_before_first_operator (currpid : Int) (input : CStr)
    (h : (tokens input).length ≤ 99) :
    (convert_input currpid input).numArgs
        = ((tokens input).takeWhile (fun t => !isOperator t)).length
    ∧ (convert_input currpid input).arguments.length
        = ((tokens input).takeWhile (fun t => !isOperator t)).length
    ∧ (convert_input currpid input).arguments
        = storedArgs (pidstring currpid) ([], 0)
            ((tokens input).takeWhile (fun t => !isOperator t))
    ∧ ((∀ t ∈ (tokens input).takeWhile (fun t => !isOperator t), ∀ i, ¬ dollarAt t i) →
        (convert_input currpid input).arguments
          = (tokens input).takeWhile (fun t => !isOperator t)) := by
  obtain ⟨h1, h2⟩ := convert_input_arguments currpid input
  rw [List.take_of_length_le h] at h1 h2
  refine ⟨h2, ?_, h1, ?_⟩
  · rw [h1, storedArgs_length]
  · intro hd
    rw [h1]
    exact storedArgs_of_no_dollar _ _ _ (by decide) hd

/-- Witness of `arguments_before_first_operator`: the line `ls -la > out &`. -/
theorem arguments_before_first_operator_witness :
    (convert_input 1234 "ls -la > out &\n".toList).numArgs
        = ((tokens "ls -la > out &\n".toList).takeWhile (fun t => !isOperator t)).length
    ∧ (convert_input 1234 "ls -la > out &\n".toList).arguments.length
        = ((tokens "ls -la > out &\n".toList).takeWhile (fun t => !isOperator t)).length
    ∧ (convert_input 1234 "ls -la > out &\n".toList).arguments
        = storedArgs (pidstring 1234) ([], 0)
            ((tokens "ls -la > out &\n".toList).takeWhile (fun t => !isOperator t))
    ∧ ((∀ t ∈ (tokens "ls -la > out &\n".toList).takeWhile (fun t => !isOperator t),
          ∀ i, ¬ dollarAt t i) →
        (convert_input 1234 "ls -la > out &\n".toList).arguments
          = (tokens "ls -la > out &\n".toList).takeWhile (fun t => !isOperator t)) :=
  arguments_before_first_operator 1234 "ls -la > out &\n".toList (by decide)

/-! ## Expansion of `$$` (C5) -/

/-- C5, as stated, fails: the token `a$$b$$c` is stored as `a$$b` followed by
the pid, not as `a`, its text before the first `$$`, followed by the pid; the
argument `$$$` is stored as `$` followed by the pid, not as the pid alone. -/
theorem dollar_first_occurrence_counterexample :
    (convert_input 1234 "echo a$$b$$c\n".toList).arguments
        = ["echo".toList, "a$$b1234".toList]
    ∧ (convert_input 1234 "echo a$$b$$c\n".toList).arguments
        ≠ ["echo".toList, "a1234".toList]
    ∧ (convert_input 1234 "echo $$$\n".toList).arguments
        = ["echo".toList, "$1234".toList]
    ∧ (convert_input 1234 "echo $$$\n".toList).arguments
        ≠ ["echo".toList, "1234".toList] := by
  decide

/-- C5 (amended): an argument token that contains two consecutive `$`, the
first token of the line included (it is `arguments[0]`), is stored in
`arguments` at its index as its text before its last `$$` followed by
`pidstring`, the decimal text of the shell's process id, the characters from
that pair on being dropped; the stored entry ends with the decimal pid.  The
tokens meant are those before the first operator token among the first 99
tokens of the line. -/
theorem dollar_expansion_last (currpid : Int) (input token : CStr)
    (hd : ∃ i, i + 1 < token.length ∧ dollarAt token i) :
    ∃ j, j + 1 < token.length ∧ dollarAt token j
      ∧ (∀ k, j < k → k + 1 < token.length → ¬ dollarAt token k)
      ∧ (∀ k : Nat, (((tokens input).take 99).takeWhile (fun t => !isOperator t))[k]? = some token →
          (convert_input currpid input).arguments[k]?
            = some (token.take j ++ pidstring currpid)) := by
  obtain ⟨j, h1, h2, h3, h4⟩ := expandScan_of_dollar token (pidstring currpid) hd
  refine ⟨j, h1, h2, h3, ?_⟩
  intro k hk
  rw [(convert_input_arguments currpid input).1]
  have := storedArgs_getElem (pidstring currpid) token _ h4 _ ([], 0) k hk
  simpa using this

/-- Witness of `dollar_expansion_last`: the token `a$$b$$c` on the line
`echo a$$b$$c`. -/
theorem dollar_expansion_last_witness :
    ∃ j, j + 1 < "a$$b$$c".toList.length ∧ dollarAt "a$$b$$c".toList j
      ∧ (∀ k, j < k → k + 1 < "a$$b$$c".toList.length → ¬ dollarAt "a$$b$$c".toList k)
      ∧ (∀ k : Nat, (((tokens "echo a$$b$$c\n".toList).take 99).takeWhile
            (fun t => !isOperator t))[k]? = some "a$$b$$c".toList →
          (convert_input 1234 "echo a$$b$$c\n".toList).arguments[k]?
            = some ("a$$b$$c".toList.take j ++ pidstring 1234)) :=
  dollar_expansion_last 1234 "echo a$$b$$c\n".toList "a$$b$$c".toList
    ⟨1, by decide, by decide⟩

/-! ## The status after a background dispatch (C6) -/

/-- C6 at the failing input: the last foreground command left status 256
(`exit(1)`), the line `sleep 5 &` is dispatched in the background (the shell
announces `background pid is: 4242`), and `terminationStatus` comes back as 0,
the initial value of the local `lastForegroundStatus`, not as 256. -/
theorem background_dispatch_resets_status :
    (sampleShell [] 256).terminationStatus = 256
    ∧ Event.write 1 "background pid is: 4242\n".toList
        ∈ (prompt_iteration (sampleWorld 4242 0 []) (sampleShell [] 256)
            "sleep 5 &\n".toList).2.1
    ∧ (prompt_iteration (sampleWorld 4242 0 []) (sampleShell [] 256)
        "sleep 5 &\n".toList).2.2.status = some 0 := by
  decide

/-! ## The status formatting rule (C7) -/

theorem fmt_d_natCast (n : Nat) : fmt_d (n : Int) = Nat.toDigits 10 n := rfl

/-- C7: `display_status` writes exactly `exit status e` and a newline for the
status of a child that exited with code `e` (0..255), exactly
`terminated by signal s` and a newline for the status of a child killed by
signal `s` (1..126, with or without the core-dump flag), and exactly
`exit value 0` and a newline for the sentinel -5, which neither kind of status
equals. -/
theorem display_status_rule (e s : Nat) (core : Bool) (he : e < 256)
    (hs : 1 ≤ s ∧ s ≤ 126) :
    display_status (exitedStatus e)
        = [Event.write 1 ("exit status ".toList ++ Nat.toDigits 10 e ++ "\n".toList)]
    ∧ display_status (signaledStatus s core)
        = [Event.write 1
            ("terminated by signal ".toList ++ Nat.toDigits 10 s ++ "\n".toList)]
    ∧ display_status (-5) = [Event.write 1 "exit value 0\n".toList]
    ∧ exitedStatus e ≠ -5
    ∧ signaledStatus s core ≠ -5 := by
  obtain ⟨hs1, hs2⟩ := hs
  have h1 : exitedStatus e ≠ -5 := by unfold exitedStatus; omega
  have h2 : signaledStatus s core ≠ -5 := by
    unfold signaledStatus; split_ifs <;> omega
  refine ⟨?_, ?_, by decide, h1, h2⟩
  · have h3 : WIFEXITED (exitedStatus e) = true := by
      unfold WIFEXITED WTERMSIG exitedStatus
      simp only [decide_eq_true_eq]
      omega
    have h4 : WEXITSTATUS (exitedStatus e) = (e : Int) := by
      unfold WEXITSTATUS exitedStatus
      omega
    unfold display_status
    rw [if_neg h1, if_pos h3, h4, fmt_d_natCast]
  · have h3 : WIFEXITED (signaledStatus s core) = false := by
      unfold WIFEXITED WTERMSIG signaledStatus
      simp only [decide_eq_false_iff_not]
      split_ifs <;> omega
    have h4 : WIFSIGNALED (signaledStatus s core) = true := by
      unfold WIFSIGNALED signaledStatus
      simp only [decide_eq_true_eq]
      split_ifs <;> omega
    have h5 : WTERMSIG (signaledStatus s core) = (s : Int) := by
      unfold WTERMSIG signaledStatus
      split_ifs <;> omega
    unfold display_status
    rw [if_neg h2, h3, h4, h5, fmt_d_natCast]
    simp

/-- Witness of `display_status_rule`: exit code 7 and signal 15. -/
theorem display_status_rule_witness :
    display_status (exitedStatus 7)
        = [Event.write 1 ("exit status ".toList ++ Nat.toDigits 10 7 ++ "\n".toList)]
    ∧ display_status (signaledStatus 15 false)
        = [Event.write 1
            ("terminated by signal ".toList ++ Nat.toDigits 10 15 ++ "\n".toList)]
    ∧ display_status (-5) = [Event.write 1 "exit value 0\n".toList]
    ∧ exitedStatus 7 ≠ -5
    ∧ signaledStatus 15 false ≠ -5 :=
  display_status_rule 7 15 false (by decide) (by decide)

/-! ## Foreground-only mode (C8) -/

theorem digitChar_ne_i (d : Nat) (h : d < 10) : Nat.digitChar d ≠ 'i' := by
  interval_cases d <;> decide

theorem toDigitsCore_ne_i : ∀ (fuel n : Nat) (ds : List Char), (∀ c ∈ ds, c ≠ 'i') →
    ∀ c ∈ Nat.toDigitsCore 10 fuel n ds, c ≠ 'i' := by
  intro fuel
  induction fuel with
  | zero => intro n ds h; simpa [Nat.toDigitsCore] using h
  | succ fuel ih =>
    intro n ds h
    have hd : ∀ c ∈ Nat.digitChar (n % 10) :: ds, c ≠ 'i' := by
      intro c hc
      rcases List.mem_cons.mp hc with rfl | hc
      · exact digitChar_ne_i _ (Nat.mod_lt n (by decide))
      · exact h c hc
    simp only [Nat.toDigitsCore]
    split_ifs
    · exact hd
    · exact ih _ _ hd

theorem toDigitsCore_ne_nil : ∀ (fuel n : Nat) (ds : List Char), ds ≠ [] →
    Nat.toDigitsCore 10 fuel n ds ≠ [] := by
  intro fuel
  induction fuel with
  | zero => intro n ds h; simpa [Nat.toDigitsCore] using h
  | succ fuel ih =>
    intro n ds _
    simp only [Nat.toDigitsCore]
    split_ifs
    · simp
    · exact ih _ _ (by simp)

/-- The decimal text of a positive `int` starts with a character other than `i`. -/
theorem fmt_d_pos (n : Int) (h : 0 < n) : ∃ c ds, fmt_d n = c :: ds ∧ c ≠ 'i' := by
  obtain ⟨m, rfl⟩ : ∃ m : Nat, n = (m : Int) := ⟨n.toNat, by omega⟩
  rw [fmt_d_natCast]
  have h1 : ∀ c ∈ Nat.toDigits 10 m, c ≠ 'i' := by
    unfold Nat.toDigits
    exact toDigitsCore_ne_i _ _ [] (by simp)
  have h2 : Nat.toDigits 10 m ≠ [] := by
    unfold Nat.toDigits
    simp only [Nat.toDigitsCore]
    split_ifs
    · simp
    · exact toDigitsCore_ne_nil _ _ _ (by simp)
  cases hm : Nat.toDigits 10 m with
  | nil => exact absurd hm h2
  | cons c ds => exact ⟨c, ds, rfl, h1 c (by rw [hm]; exact List.mem_cons_self c ds)⟩

theorem display_status_notAnnounce (status : Int) :
    ∀ ev ∈ display_status status, notAnnounce ev := by
  have hb : "background pid is:".toList = 'b' :: "ackground pid is:".toList := rfl
  have h1 : "exit value 0\n".toList.take 13 = 'e' :: "xit value 0\n".toList := rfl
  have h2 : "exit status ".toList = 'e' :: "xit status ".toList := rfl
  have h3 : "terminated by signal ".toList = 't' :: "erminated by signal ".toList := rfl
  intro ev hev fd bytes he
  subst he
  rw [hb]
  unfold display_status at hev
  split_ifs at hev
  · simp only [List.mem_singleton, Event.write.injEq] at hev
    rw [hev.2, h1, List.cons_prefix_cons]
    exact fun h => absurd h.1 (by decide)
  · simp only [List.mem_singleton, Event.write.injEq] at hev
    rw [hev.2, h2, List.cons_append, List.cons_append, List.cons_prefix_cons]
    exact fun h => absurd h.1 (by decide)
  · simp only [List.mem_singleton, Event.write.injEq] at hev
    rw [hev.2, h3, List.cons_append, List.cons_append, List.cons_prefix_cons]
    exact fun h => absurd h.1 (by decide)
  · simp at hev

theorem reapLoop_notAnnounce : ∀ (reaps : List (Int × Int)),
    ∀ ev ∈ reapLoop reaps, notAnnounce ev := by
  intro reaps
  induction reaps with
  | nil =>
    intro ev hev fd bytes he
    subst he
    simp [reapLoop] at hev
  | cons r rest ih =>
    intro ev hev
    unfold reapLoop at hev
    split_ifs at hev with hr
    · simp only [List.mem_cons, List.mem_append] at hev
      rcases hev with rfl | rfl | hev | hev
      · intro fd bytes he; cases he
      · intro fd bytes he
        obtain ⟨c, ds, hc, hci⟩ := fmt_d_pos r.1 hr
        have hb : "background pid is:".toList
            = "background pid ".toList ++ 'i' :: "s:".toList := rfl
        simp only [Event.write.injEq] at he
        rw [← he.2, hb, List.append_assoc, List.prefix_append_right_inj, hc,
          List.cons_append, List.cons_prefix_cons]
        exact fun h => hci h.1.symm
      · exact display_status_notAnnounce _ ev hev
      · exact ih ev hev
    · intro fd bytes he
      subst he
      simp at hev

/-- C8: in foreground-only mode (`allowBackground = 0`) every command, one
with `backgroundFlag = 1` included, takes the foreground path once `fork` has
given the child: the first call after `fork` is the blocking `waitpid` on that
child, no write starts with `background pid is:`, and the call returns the
status that wait reported as the new last-foreground status, the job table
being the one it was given. -/
theorem foreground_only_mode (os : OS) (enteredCommand : command)
    (foreground_child_SIGINT child_SIGTSTP : Int) (runningProcesses : processes)
    (hf : 0 < os.fork) (hw : os.fgWait.1 = os.fork) :
    (execute_command os 0 enteredCommand foreground_child_SIGINT child_SIGTSTP
        runningProcesses).2 = Outcome.returned os.fgWait.2 runningProcesses
    ∧ (execute_command os 0 enteredCommand foreground_child_SIGINT child_SIGTSTP
        runningProcesses).1.take 2 = [Event.fork os.fork, Event.waitpid os.fork 0 os.fork]
    ∧ ∀ ev ∈ (execute_command os 0 enteredCommand foreground_child_SIGINT child_SIGTSTP
        runningProcesses).1, notAnnounce ev := by
  have h0 : ¬ os.fork = 0 := by omega
  have h1 : ¬ os.fork < 0 := by omega
  have h2 : ¬ (enteredCommand.backgroundFlag = 1 ∧ (0 : Int) = 1) := by
    intro h; exact absurd h.2 (by decide)
  have h3 : storeStatus 0 os.fgWait = os.fgWait.2 := by
    unfold storeStatus
    rw [if_pos (by rw [hw]; exact hf)]
  unfold execute_command
  simp only [if_neg h0, if_neg h1, if_neg h2, h3, hw]
  refine ⟨trivial, rfl, ?_⟩
  intro ev hev
  simp only [List.cons_append, List.nil_append, List.mem_cons, List.mem_append] at hev
  rcases hev with rfl | rfl | hev | hev
  · intro fd bytes he; cases he
  · intro fd bytes he; cases he
  · split_ifs at hev
    · simp only [List.mem_singleton] at hev
      subst hev
      intro fd bytes he
      simp only [Event.write.injEq] at he
      have hb : "background pid is:".toList = 'b' :: "ackground pid is:".toList := rfl
      have ht : readBytes "terminated by signal ".toList os.afterSignalMessage 24
          = 't' :: ("erminated by signal ".toList ++ Char.ofNat 0 :: os.afterSignalMessage).take
              23 := rfl
      rw [← he.2, hb, ht, List.cons_prefix_cons]
      exact fun h => absurd h.1 (by decide)
    · simp at hev
  · exact reapLoop_notAnnounce _ ev hev

/-- Witness of `foreground_only_mode`: the command of the line `sleep 5 &`,
the child 4242 ending with status 0. -/
theorem foreground_only_mode_witness :
    (convert_input 1234 "sleep 5 &\n".toList).backgroundFlag = 1
    ∧ (execute_command (sampleOS 4242 0 []) 0 (convert_input 1234 "sleep 5 &\n".toList)
        SIG_DFL SIG_IGN (sampleShell [] 0).runningProcesses).2
      = Outcome.returned (sampleOS 4242 0 []).fgWait.2 (sampleShell [] 0).runningProcesses
    ∧ (execute_command (sampleOS 4242 0 []) 0 (convert_input 1234 "sleep 5 &\n".toList)
        SIG_DFL SIG_IGN (sampleShell [] 0).runningProcesses).1.take 2
      = [Event.fork (sampleOS 4242 0 []).fork,
         Event.waitpid (sampleOS 4242 0 []).fork 0 (sampleOS 4242 0 []).fork]
    ∧ ∀ ev ∈ (execute_command (sampleOS 4242 0 []) 0
        (convert_input 1234 "sleep 5 &\n".toList) SIG_DFL SIG_IGN
        (sampleShell [] 0).runningProcesses).1, notAnnounce ev :=
  ⟨by decide,
    foreground_only_mode (sampleOS 4242 0 []) (convert_input 1234 "sleep 5 &\n".toList)
      SIG_DFL SIG_IGN (sampleShell [] 0).runningProcesses (by decide) (by decide)⟩

/-! ## The job table (C9, C10) -/

/-- C9 at the failing input: the job table tracks pid 100, the sweep of a
foreground dispatch reports pid 100 as terminated, and when `execute_command`
returns pid 100 is still in slot 0 and `numProcesses` is still 1; a background
dispatch does add its child (pid 4242 in slot 1, `numProcesses` 2). -/
theorem reaped_pid_stays_tracked :
    Event.waitpid (-1) WNOHANG 100
        ∈ (execute_command (sampleOS 4242 0 [(100, 0)]) 1 (convert_input 1234 "ls\n".toList)
            SIG_DFL SIG_IGN (sampleShell [100] 0).runningProcesses).1
    ∧ Event.write 1 "background pid 100 is done: ".toList
        ∈ (execute_command (sampleOS 4242 0 [(100, 0)]) 1 (convert_input 1234 "ls\n".toList)
            SIG_DFL SIG_IGN (sampleShell [100] 0).runningProcesses).1
    ∧ (execute_command (sampleOS 4242 0 [(100, 0)]) 1 (convert_input 1234 "ls\n".toList)
        SIG_DFL SIG_IGN (sampleShell [100] 0).runningProcesses).2.table [0]
      = some (1, [100])
    ∧ (execute_command (sampleOS 4242 0 [(100, 0)]) 1
        (convert_input 1234 "sleep 5 &\n".toList)
        SIG_DFL SIG_IGN (sampleShell [100] 0).runningProcesses).2.table [0, 1]
      = some (2, [100, 4242]) := by
  decide

/-- C10 at the failing input: the job table tracks pids 100 and 200 (slot 2
holds 0) and the line is `exit`; the shell calls `kill(0, SIGTERM)` twice, the
target being slot `numProcesses` each time, and signals neither 100 nor 200. -/
theorem exit_kills_wrong_slot :
    (prompt_iteration (sampleWorld 4242 0 []) (sampleShell [100, 200] 0) "exit\n".toList).2.1
      = [Event.kill 0 SIGTERM, Event.kill 0 SIGTERM]
    ∧ (prompt_iteration (sampleWorld 4242 0 []) (sampleShell [100, 200] 0) "exit\n".toList).2.1
      ≠ [Event.kill 100 SIGTERM, Event.kill 200 SIGTERM] := by
  decide

/-! ## The message after a signalled foreground child (C11) -/

/-- C11 at the failing input: the foreground child 4242 of the line
`sleep 100` is killed by signal 2; whatever bytes follow the literal in memory,
the one write the shell makes for that child is 24 bytes long: the 21
characters of `terminated by signal `, the terminating NUL and two bytes past
it; that is not the text `terminated by signal 2`, and the sweep writes
nothing more. -/
theorem signal_message_without_number (after : List Char) :
    WIFSIGNALED 2 = true ∧ WTERMSIG 2 = 2
    ∧ (execute_command { sampleOS 4242 2 [] with afterSignalMessage := after } 1
        (convert_input 1234 "sleep 100\n".toList) SIG_DFL SIG_IGN
        (sampleShell [] 0).runningProcesses).1
      = [Event.fork 4242, Event.waitpid 4242 0 4242,
         Event.write 1 ("terminated by signal ".toList ++ Char.ofNat 0 :: after.take 2),
         Event.waitpid (-1) WNOHANG (-1)]
    ∧ "terminated by signal ".toList ++ Char.ofNat 0 :: after.take 2
      ≠ "terminated by signal 2".toList := by
  refine ⟨by decide, by decide, rfl, ?_⟩
  intro h
  have e1 : ("terminated by signal ".toList ++ Char.ofNat 0 :: after.take 2).getD 21 'x'
      = Char.ofNat 0 := rfl
  have e2 : ("terminated by signal ".toList ++ Char.ofNat 0 :: after.take 2).getD 21 'x'
      = "terminated by signal 2".toList.getD 21 'x' := by rw [h]
  rw [e1] at e2
  exact absurd e2 (by decide)

/-! ## The messages of the signal handler (C12) -/

/-- C12 at the failing input: with `allowBackground = 0` the handler sets the
flag to 1 and writes 30 bytes, the 29 characters of
`Exiting foreground-only mode` with its newline and then the terminating NUL
of the literal, whatever follows it in memory; with `allowBackground = 1` it
sets the flag to 0 and writes exactly the 49 characters of the entering
message. -/
theorem sigtstp_exit_message_extra_byte (afterEnter afterExit : List Char) :
    handle_parent_SIGTSTP afterEnter afterExit 0
      = ([Event.write 1 ("Exiting foreground-only mode\n".toList ++ [Char.ofNat 0])], 1)
    ∧ "Exiting foreground-only mode\n".toList.length = 29
    ∧ ("Exiting foreground-only mode\n".toList ++ [Char.ofNat 0]).length = 30
    ∧ handle_parent_SIGTSTP afterEnter afterExit 1
      = ([Event.write 1 "Entering foreground-only mode (& is now ignored)\n".toList], 0)
    ∧ "Entering foreground-only mode (& is now ignored)\n".toList.length = 49 := by
  refine ⟨rfl, by decide, by decide, rfl, by decide⟩

/-! ## The latched `converted` flag (C13) -/

/-- Entries stored while no token up to index `k` contains `$$`: the entry is
the token itself, or `convertedString` when `converted` was 1 before. -/
theorem storedArgs_latch_none (pid : CStr) : ∀ (ts : List CStr) (acc : CStr × Int) (k : Nat)
    (token : CStr), ts[k]? = some token →
    (∀ (m : Nat) (t : CStr), m ≤ k → ts[m]? = some t → ∀ i, ¬ dollarAt t i) →
    (storedArgs pid acc ts)[k]? = some (if acc.2 = 1 then acc.1 else token) := by
  intro ts
  induction ts with
  | nil => intro acc k token h; simp at h
  | cons t0 ts ih =>
    intro acc k token hk hno
    have e := expandScan_of_no_dollar t0 pid (hno 0 t0 (Nat.zero_le k) (by simp)) acc
    cases k with
    | zero =>
      simp only [List.getElem?_cons_zero, Option.some.injEq] at hk
      subst hk
      simp only [storedArgs, e, List.getElem?_cons_zero]
    | succ k =>
      simp only [List.getElem?_cons_succ] at hk
      simp only [storedArgs, e, List.getElem?_cons_succ]
      exact ih acc k token hk
        (fun m t hm ht => hno (m + 1) t (by omega) (by simpa using ht))

/-- Entries stored after a token `t` that contains `$$`, up to the next such
token: each is the expansion `v.1` of `t`. -/
theorem storedArgs_latch_some (pid t : CStr) (v : CStr × Int)
    (hv : ∀ acc, expandScan t pid acc = v) (hv1 : v.2 = 1) :
    ∀ (ts : List CStr) (acc : CStr × Int) (k m : Nat) (token : CStr),
    m ≤ k → ts[m]? = some t → ts[k]? = some token →
    (∀ (n : Nat) (u : CStr), m < n → n ≤ k → ts[n]? = some u → ∀ i, ¬ dollarAt u i) →
    (storedArgs pid acc ts)[k]? = some v.1 := by
  intro ts
  induction ts with
  | nil => intro acc k m token _ h; simp at h
  | cons t0 ts ih =>
    intro acc k m token hmk hm hk hno
    cases m with
    | zero =>
      simp only [List.getElem?_cons_zero, Option.some.injEq] at hm
      subst hm
      cases k with
      | zero => simp only [storedArgs, hv, hv1, if_true, List.getElem?_cons_zero]
      | succ k =>
        simp only [List.getElem?_cons_succ] at hk
        simp only [storedArgs, hv, List.getElem?_cons_succ]
        have := storedArgs_latch_none pid ts v k token hk
          (fun n u hn hu => hno (n + 1) u (by omega) (by omega) (by simpa using hu))
        rw [this, if_pos hv1]
    | succ m =>
      cases k with
      | zero => omega
      | succ k =>
        simp only [List.getElem?_cons_succ] at hm hk
        simp only [storedArgs, List.getElem?_cons_succ]
        exact ih _ k m token (by omega) hm hk
          (fun n u hn1 hn2 hu => hno (n + 1) u (by omega) (by omega) (by simpa using hu))

/-- C13: `converted` is never cleared within a line.  For the argument at
index `k` (a token before the first operator token among the first 99): when
no token up to index `k` contains `$$` the argument is stored verbatim; when
the token at index `m`, at or before `k`, contains `$$` and none between `m`
and `k` does, the argument stored at index `k` is the expansion of the token at
index `m`, its text before its last `$$` followed by `pidstring`, rather than
the text of the token at index `k`. -/
theorem converted_flag_latches (currpid : Int) (input : CStr) (k : Nat) (token : CStr)
    (hk : (((tokens input).take 99).takeWhile (fun t => !isOperator t))[k]? = some token) :
    ((∀ (m : Nat) (t : CStr), m ≤ k →
        (((tokens input).take 99).takeWhile (fun t => !isOperator t))[m]? = some t →
        ∀ i, ¬ dollarAt t i) →
      (convert_input currpid input).arguments[k]? = some token)
    ∧ (∀ (m : Nat) (t : CStr), m ≤ k →
        (((tokens input).take 99).takeWhile (fun t => !isOperator t))[m]? = some t →
        (∃ i, i + 1 < t.length ∧ dollarAt t i) →
        (∀ (n : Nat) (u : CStr), m < n → n ≤ k →
          (((tokens input).take 99).takeWhile (fun t => !isOperator t))[n]? = some u →
          ∀ i, ¬ dollarAt u i) →
        ∃ j, j + 1 < t.length ∧ dollarAt t j
          ∧ (∀ i, j < i → i + 1 < t.length → ¬ dollarAt t i)
          ∧ (convert_input currpid input).arguments[k]?
              = some (t.take j ++ pidstring currpid)) := by
  rw [(convert_input_arguments currpid input).1]
  refine ⟨fun hno => ?_, fun m t hm ht hd hno => ?_⟩
  · have := storedArgs_latch_none (pidstring currpid) _ ([], 0) k token hk hno
    simpa using this
  · obtain ⟨j, h1, h2, h3, h4⟩ := expandScan_of_dollar t (pidstring currpid) hd
    exact ⟨j, h1, h2, h3,
      storedArgs_latch_some (pidstring currpid) t _ h4 rfl _ ([], 0) k m token hm ht hk hno⟩

/-- Witness of `converted_flag_latches`: the argument `hello` of the line
`echo $$ hello`, whose arguments are stored as `echo`, the pid, the pid. -/
theorem converted_flag_latches_witness :
    (convert_input 1234 "echo $$ hello\n".toList).arguments
      = ["echo".toList, "1234".toList, "1234".toList]
    ∧ ((∀ (m : Nat) (t : CStr), m ≤ 2 →
        (((tokens "echo $$ hello\n".toList).take 99).takeWhile
          (fun t => !isOperator t))[m]? = some t →
        ∀ i, ¬ dollarAt t i) →
      (convert_input 1234 "echo $$ hello\n".toList).arguments[2]? = some "hello".toList)
    ∧ (∀ (m : Nat) (t : CStr), m ≤ 2 →
        (((tokens "echo $$ hello\n".toList).take 99).takeWhile
          (fun t => !isOperator t))[m]? = some t →
        (∃ i, i + 1 < t.length ∧ dollarAt t i) →
        (∀ (n : Nat) (u : CStr), m < n → n ≤ 2 →
          (((tokens "echo $$ hello\n".toList).take 99).takeWhile
            (fun t => !isOperator t))[n]? = some u →
          ∀ i, ¬ dollarAt u i) →
        ∃ j, j + 1 < t.length ∧ dollarAt t j
          ∧ (∀ i, j < i → i + 1 < t.length → ¬ dollarAt t i)
          ∧ (convert_input 1234 "echo $$ hello\n".toList).arguments[2]?
              = some (t.take j ++ pidstring 1234)) :=
  ⟨by decide,
    converted_flag_latches 1234 "echo $$ hello\n".toList 2 "hello".toList (by decide)⟩

end Smallsh
